import Mathlib

/-!
Verification development for the beerbot repository (per-role inventory
decision engine).  The three engine variants under `src/` are shallowly
embedded:

* `src/app.py`      → definitions prefixed `app_`
* `src/BeerGame.py` → definitions prefixed `beer_`
* `src/beerbot.py`  → definitions prefixed `bot_`

Modelling conventions:

* JSON request bodies and week records are modelled by the inductive `JVal`.
  Python `dict.get(k, d)` is `jGet` (raising `AttributeError` on non-dicts),
  `d[k]` is `jIndex` (raising `KeyError` / `TypeError`), and fallible code is
  modelled in `Except String`.
* Python floats are modelled as exact rationals (`ℚ`); decimal literals are
  read as the corresponding rationals.  The only irrational square root in
  the sources, `math.sqrt(3)`, is modelled by `sqrt3`, the exact rational
  value of the IEEE-754 double it evaluates to; no theorem below depends on
  rounding details of float arithmetic (concrete evaluations have large
  slack, and the bound theorems are structural in the clamping).
* Python `int(x)` is `pyToInt`: it truncates numbers toward zero and maps
  booleans to 0/1.  Conversion of strings (which CPython would parse) is
  modelled as a failure; no claim below depends on string-encoded numbers.
* Python truthiness (`x or y`) is modelled by `pyTruthy`.
-/

/-- A JSON-like value as parsed by `request.get_json`. -/
inductive JVal where
  | null : JVal
  | bool (b : Bool) : JVal
  | num (q : ℚ) : JVal
  | str (s : String) : JVal
  | arr (l : List JVal) : JVal
  | obj (l : List (String × JVal)) : JVal

/-- First binding of a key in an association list, with a default. -/
def lookupD (l : List (String × JVal)) (k : String) (d : JVal) : JVal :=
  match l with
  | [] => d
  | (k1, v) :: t => if k1 == k then v else lookupD t k d

/-- Python truthiness of a JSON value. -/
def pyTruthy : JVal → Bool
  | .null => false
  | .bool b => b
  | .num q => q != 0
  | .str s => s != ""
  | .arr l => !l.isEmpty
  | .obj l => !l.isEmpty

/-- Python `v.get(k, d)`: only dictionaries have `.get`. -/
def jGet (v : JVal) (k : String) (d : JVal) : Except String JVal :=
  match v with
  | .obj l => .ok (lookupD l k d)
  | _ => .error "AttributeError"

/-- Python `v[k]` on a dictionary: missing key raises `KeyError`,
non-dictionaries raise `TypeError`. -/
def jIndex (v : JVal) (k : String) : Except String JVal :=
  match v with
  | .obj l =>
      match l.lookup k with
      | some r => .ok r
      | none => .error "KeyError"
  | _ => .error "TypeError"

/-- Truncation toward zero, the behaviour of Python `int()` on floats. -/
def truncQ (q : ℚ) : ℤ := if q < 0 then ⌈q⌉ else ⌊q⌋

/-- Python `int(v)` on a JSON value (strings modelled as failing). -/
def pyToInt (v : JVal) : Except String ℤ :=
  match v with
  | .num q => .ok (truncQ q)
  | .bool b => .ok (if b then 1 else 0)
  | _ => .error "TypeError"

/-- Python `float(v)` on a JSON value (strings modelled as failing). -/
def pyToFloat (v : JVal) : Except String ℚ :=
  match v with
  | .num q => .ok q
  | .bool b => .ok (if b then 1 else 0)
  | _ => .error "TypeError"

/-- Python `v == n` for an integer literal `n` (`True == 1` holds). -/
def pyEqInt (v : JVal) (n : ℤ) : Bool :=
  match v with
  | .num q => q == (n : ℚ)
  | .bool b => (if b then (1 : ℤ) else 0) == n
  | _ => false

/-- Python `v is True`. -/
def isTrueLit (v : JVal) : Bool :=
  match v with
  | .bool true => true
  | _ => false

/-- Python `v.lower()`: only strings have `.lower`. -/
def pyLower (v : JVal) : Except String String :=
  match v with
  | .str s => .ok s.toLower
  | _ => .error "AttributeError"

/-- `math.sqrt(3)` = `math.sqrt(H_TARGET)` (src/app.py line 130), modelled
exactly: the IEEE-754 double closest to the real square root of 3 is the
rational 3900231685776981 / 2^51, embedded here as that exact rational.
(The only other square root in the sources, `HORIZON ** 0.5 = 4 ** 0.5`,
is exactly 2.) -/
def sqrt3 : ℚ := 3900231685776981 / 2251799813685248

/-- The response of a `/api/decision` endpoint: either the handshake
descriptor or one integer order per role. -/
inductive Resp where
  | handshake : Resp
  | orders (retailer wholesaler distributor factory : ℤ) : Resp

/-- All four orders of a response are non-negative (vacuous for handshakes). -/
def respNonneg : Resp → Prop
  | .handshake => True
  | .orders r w d f => 0 ≤ r ∧ 0 ≤ w ∧ 0 ≤ d ∧ 0 ≤ f

/-! ### src/app.py -/

/-- `ALPHA = 0.10` (src/app.py line 16). -/
def app_ALPHA : ℚ := 1 / 10

/-- `K_SAFETY = 2.50` (src/app.py line 17). -/
def app_K_SAFETY : ℚ := 5 / 2

/-- `LEAD_TIME = 2` (src/app.py line 20): a module constant, modelled as the
argument passed for the `leadTime` parameter below. -/
def app_LEAD_TIME : ℕ := 2

/-- `H_TARGET = REVIEW_TIME + LEAD_TIME = 3` (src/app.py line 21). -/
def app_H_TARGET : ℚ := 3

/-- `MAX_ORDER_CHANGE = 0.1` (src/app.py line 31). -/
def app_MAX_ORDER_CHANGE : ℚ := 1 / 10

/-- `INITIAL_DEMAND_ESTIMATE = 10` (src/app.py line 33). -/
def app_INITIAL_DEMAND : ℤ := 10

/-- `BETA_BY_ROLE.get(role, 0.5)` (src/app.py lines 24-29, 154). -/
def app_beta (role : String) : ℚ :=
  if role == "retailer" then 2 / 25
  else if role == "wholesaler" then 1 / 20
  else if role == "distributor" then 3 / 100
  else if role == "factory" then 1 / 100
  else 1 / 2

/-- `round_half_up` (src/app.py lines 36-38): `max(0, floor(x + 0.5))`. -/
def app_round_half_up (x : ℚ) : ℤ := max 0 ⌊x + 1 / 2⌋

/-- Demand key used by the forecaster (src/app.py line 49): the retailer
reads `customer_orders`, every other role reads `incoming_orders`. -/
def app_demand_key (role : String) : String :=
  if role == "retailer" then "customer_orders" else "incoming_orders"

/-- Loop body of `smooth_forecast_and_mad` (src/app.py lines 54-75),
indexing into `weeks` as the source does (`weeks[i-1]` for the previous
demand). -/
def app_smooth_go (weeks : List JVal) (role : String) (alpha : ℚ)
    (i : ℕ) (fc : Option ℚ) (mad : ℚ) : Except String (Option ℚ × ℚ) :=
  if _h : i < weeks.length then do
    let w := weeks.getD i .null
    let rv ← jIndex w "roles"
    let rr ← jIndex rv role
    let dv ← jGet rr (app_demand_key role) (.num 0)
    let di ← pyToInt dv
    let d : ℤ := max 0 di
    match fc with
    | none =>
        app_smooth_go weeks role alpha (i + 1)
          (some (if 0 < d then (d : ℚ) else (app_INITIAL_DEMAND : ℚ))) mad
    | some f => do
        let prevD ←
          if 0 < i then do
            let pw := weeks.getD (i - 1) .null
            let pv ← jIndex pw "roles"
            let pr ← jIndex pv role
            let pd ← jGet pr (app_demand_key role) (.num (app_INITIAL_DEMAND : ℚ))
            pyToFloat pd
          else pure ((app_INITIAL_DEMAND : ℤ) : ℚ)
        app_smooth_go weeks role alpha (i + 1)
          (some (alpha * (d : ℚ) + (1 - alpha) * f))
          (alpha * |(d : ℚ) - prevD| + (1 - alpha) * mad)
  else pure (fc, mad)
termination_by weeks.length - i

/-- `smooth_forecast_and_mad` (src/app.py lines 40-78).  The return line is
`(fc or float(initial_demand)), max(1.0, mad or fc / 5.0 or 1.0)`; when the
loop never ran (`fc is None`) the second component evaluates `None / 5.0`,
a `TypeError`. -/
def app_smooth_forecast_and_mad (weeks : List JVal) (role : String)
    (alpha : ℚ) : Except String (ℚ × ℚ) := do
  let st ← app_smooth_go weeks role alpha 0 none 0
  match st with
  | (none, _) => .error "TypeError"
  | (some fc, mad) =>
      .ok (if fc = 0 then (app_INITIAL_DEMAND : ℚ) else fc,
           max 1 (if mad = 0 then (if fc / 5 = 0 then 1 else fc / 5) else mad))

/-- The list comprehension `[int(w.get("orders", {}).get(role, 0)) for w in
weeks]` (src/app.py line 95): note there is no `max(0, ...)` here. -/
def app_get_order (role : String) (w : JVal) : Except String ℤ := do
  let lo ← jGet w "orders" (.obj [])
  let v ← jGet lo role (.num 0)
  pyToInt v

/-- All placed orders of a role, oldest first (src/app.py line 95). -/
def app_orders_list (role : String) : List JVal → Except String (List ℤ)
  | [] => .ok []
  | w :: ws => do
      let o ← app_get_order role w
      let os ← app_orders_list role ws
      pure (o :: os)

/-- `calculate_pipeline` (src/app.py lines 81-109).  The module constant
`LEAD_TIME` is passed as the `leadTime` argument (the source fixes it to 2).
`sum(orders[-(i + 1)] for i in range(take))` is the sum of the most recent
`take` orders. -/
def app_calculate_pipeline (leadTime : ℕ) (weeks : List JVal)
    (role : String) : Except String ℤ :=
  if leadTime ≤ 1 ∨ weeks.length < leadTime then .ok 0
  else do
    let os ← app_orders_list role weeks
    let take_n := leadTime - 1
    if os.length < take_n then pure 0
    else pure ((os.reverse.take take_n).sum)

/-- `max(0, int(weeks[-1].get("orders", {}).get(role, 0)))`
(src/app.py line 157). -/
def app_q_last (weeks : List JVal) (role : String) : Except String ℤ := do
  let lo ← jGet (weeks.getLastD .null) "orders" (.obj [])
  let v ← jGet lo role (.num 0)
  let i ← pyToInt v
  pure (max 0 i)

/-- Body of `decide_for_role` after the week-1 special case
(src/app.py lines 120-176). -/
def app_decide_core (weeks : List JVal) (role : String) : Except String ℤ := do
  let rs ← jIndex (weeks.getLastD .null) "roles"
  let _cur ← jIndex rs role
  let fm ← app_smooth_forecast_and_mad weeks role app_ALPHA
  let ss := app_K_SAFETY * fm.2 * sqrt3
  let inv ← jGet _cur "inventory" (.num 0) >>= pyToInt
  let bkl ← jGet _cur "backlog" (.num 0) >>= pyToInt
  let pl ← app_calculate_pipeline app_LEAD_TIME weeks role
  let ip : ℚ := (inv : ℚ) - (bkl : ℚ) + (pl : ℚ)
  let target := fm.1 * app_H_TARGET + ss
  let gap := target - ip
  let beta := app_beta role
  let ql ← app_q_last weeks role
  let qBase := beta * gap + (1 - beta) * (ql : ℚ)
  let ramp : ℤ := max 1 (app_round_half_up (app_MAX_ORDER_CHANGE * max fm.1 1))
  let qMinRamp := max 0 (ql - ramp)
  let qMaxRamp := ql + ramp
  let qFinal := min qMaxRamp (max qMinRamp (app_round_half_up qBase))
  pure (max 0 qFinal)

/-- `decide_for_role` (src/app.py lines 112-176), including the week-1
special case of lines 116-118 with Python short-circuit evaluation. -/
def app_decide_for_role (weeks : List JVal) (role : String) :
    Except String ℤ :=
  if weeks.length = 1 then do
    let wk ← jGet (weeks.headD .null) "week" .null
    if pyEqInt wk 1 then pure app_INITIAL_DEMAND
    else app_decide_core weeks role
  else app_decide_core weeks role

/-- The inventory-position computation of `decide_for_role`
(src/app.py lines 120, 132-142): `IP = inventory - backlog + pipeline`. -/
def app_IP (weeks : List JVal) (role : String) : Except String ℤ := do
  let rs ← jIndex (weeks.getLastD .null) "roles"
  let cur ← jIndex rs role
  let inv ← jGet cur "inventory" (.num 0) >>= pyToInt
  let bkl ← jGet cur "backlog" (.num 0) >>= pyToInt
  let pl ← app_calculate_pipeline app_LEAD_TIME weeks role
  pure (inv - bkl + pl)

/-- The order-up-to target of `decide_for_role`
(src/app.py lines 126-146): `S = fc * H + K_SAFETY * mad * sqrt(H)`. -/
def app_target (weeks : List JVal) (role : String) : Except String ℚ := do
  let fm ← app_smooth_forecast_and_mad weeks role app_ALPHA
  pure (fm.1 * app_H_TARGET + app_K_SAFETY * fm.2 * sqrt3)

/-- The dictionary comprehension of src/app.py line 202. -/
def app_orders4 (ws : List JVal) : Except String (ℤ × ℤ × ℤ × ℤ) := do
  let r ← app_decide_for_role ws "retailer"
  let w ← app_decide_for_role ws "wholesaler"
  let d ← app_decide_for_role ws "distributor"
  let f ← app_decide_for_role ws "factory"
  pure (r, w, d, f)

/-- The weekly-decision part of the endpoint (src/app.py lines 196-210):
non-list or empty `weeks` yields the baseline, the `try` block absorbs any
exception into the baseline, and each order is coerced by `max(0, int(v))`. -/
def app_weekly (wv : JVal) : Resp :=
  match wv with
  | .arr ws =>
      if ws.isEmpty then .orders 10 10 10 10
      else
        match app_orders4 ws with
        | .ok (r, w, d, f) =>
            .orders (max 0 r) (max 0 w) (max 0 d) (max 0 f)
        | .error _ => .orders 10 10 10 10
  | _ => .orders 10 10 10 10

/-- The `/api/decision` endpoint of src/app.py (lines 179-210).
`body = request.get_json(...) or {}` is modelled by the truthiness test;
`body.get(...)` raises `AttributeError` on non-dictionary bodies. -/
def app_decision (body : JVal) : Except String Resp := do
  let b := if pyTruthy body then body else .obj []
  let hs ← jGet b "handshake" .null
  if isTrueLit hs then pure .handshake
  else do
    let wv ← jGet b "weeks" (.arr [])
    pure (app_weekly wv)

/-! ### src/BeerGame.py -/

/-- `ALPHA = 0.3` (src/BeerGame.py line 28). -/
def beer_ALPHA : ℚ := 3 / 10

/-- `BETA = 0.6` (src/BeerGame.py line 29). -/
def beer_BETA : ℚ := 3 / 5

/-- `K_SAFETY = 0.5` (src/BeerGame.py line 30). -/
def beer_K_SAFETY : ℚ := 1 / 2

/-- `HORIZON = 4` (src/BeerGame.py line 31). -/
def beer_HORIZON : ℚ := 4

/-- `HORIZON ** 0.5 = 4 ** 0.5 = 2.0`, exact in floating point
(src/BeerGame.py line 99). -/
def beer_SQRT_HORIZON : ℚ := 2

/-- `round_half_up` (src/BeerGame.py lines 43-46): `0` for `x ≤ 0`, else
`int(x + 0.5)` which truncates toward zero. -/
def beer_round_half_up (x : ℚ) : ℤ := if x ≤ 0 then 0 else truncQ (x + 1 / 2)

/-- Loop of `smooth_forecast_and_mae` (src/BeerGame.py lines 53-63 and the
identical src/beerbot.py lines 46-54): the error update uses the previous
forecast level as the reference point. -/
def beer_smooth_go (role : String) (alpha : ℚ) :
    List JVal → Option ℚ → ℚ → Except String (Option ℚ × ℚ)
  | [], fc, mae => pure (fc, mae)
  | w :: ws, fc, mae => do
      let rv ← jIndex w "roles"
      let rr ← jIndex rv role
      let dv ← jGet rr "incoming_orders" (.num 0)
      let di ← pyToInt dv
      let d : ℤ := max 0 di
      match fc with
      | none => beer_smooth_go role alpha ws (some (d : ℚ)) mae
      | some f =>
          beer_smooth_go role alpha ws
            (some (alpha * (d : ℚ) + (1 - alpha) * f))
            (alpha * |(d : ℚ) - f| + (1 - alpha) * mae)

/-- `smooth_forecast_and_mae` (src/BeerGame.py lines 49-66, src/beerbot.py
lines 45-55): cold start sets the level to the first observation and leaves
the error at 0; the return applies `(fc or 0.0)`. -/
def beer_smooth_forecast_and_mae (weeks : List JVal) (role : String)
    (alpha : ℚ) : Except String (ℚ × ℚ) := do
  let st ← beer_smooth_go role alpha weeks none 0
  pure (st.1.getD 0, st.2)

/-- `projected_position` (src/BeerGame.py lines 69-82): returns projected
on-hand, projected backlog and the inventory position; no pipeline term. -/
def beer_projected_position (rs : JVal) : Except String (ℤ × ℤ × ℤ) := do
  let inv ← jGet rs "inventory" (.num 0) >>= pyToInt
  let bkl ← jGet rs "backlog" (.num 0) >>= pyToInt
  let inc ← jGet rs "incoming_orders" (.num 0) >>= pyToInt
  let arr ← jGet rs "arriving_shipments" (.num 0) >>= pyToInt
  let onHand := max 0 (inv + arr - bkl - inc)
  let bklProj := max 0 (bkl + inc - (inv + arr))
  pure (onHand, bklProj, onHand - bklProj)

/-- `last_order` (src/BeerGame.py lines 85-92): the dictionary lookups are
outside the `try`, only the `int` conversion is guarded (falling back to 0). -/
def beer_last_order (weeks : List JVal) (role : String) : Except String ℤ :=
  if weeks.isEmpty then pure 0
  else do
    let lo ← jGet (weeks.getLastD .null) "orders" (.obj [])
    let v ← jGet lo role (.num 0)
    pure (match pyToInt v with | .ok i => max 0 i | .error _ => 0)

/-- `decide_for_role` (src/BeerGame.py lines 95-105): no week-1 special
case, no ramp limiting, no ceiling — the partial adjustment is rounded and
returned directly. -/
def beer_decide_for_role (weeks : List JVal) (role : String) :
    Except String ℤ := do
  let fm ← beer_smooth_forecast_and_mae weeks role beer_ALPHA
  let rs ← jIndex (weeks.getLastD .null) "roles"
  let cur ← jIndex rs role
  let pp ← beer_projected_position cur
  let ip := pp.2.2
  let safety := beer_K_SAFETY * fm.2 * beer_SQRT_HORIZON
  let target := fm.1 * beer_HORIZON + safety
  let gap := target - (ip : ℚ)
  let lo ← beer_last_order weeks role
  let qStar := beer_BETA * gap + (1 - beer_BETA) * (lo : ℚ)
  pure (beer_round_half_up qStar)

/-- The per-role loop of the endpoint (src/BeerGame.py lines 139-145):
exceptions from `decide_for_role` are NOT caught here. -/
def beer_orders4 (ws : List JVal) : Except String (ℤ × ℤ × ℤ × ℤ) := do
  let r ← beer_decide_for_role ws "retailer"
  let w ← beer_decide_for_role ws "wholesaler"
  let d ← beer_decide_for_role ws "distributor"
  let f ← beer_decide_for_role ws "factory"
  pure (r, w, d, f)

/-- The `/api/decision` endpoint of src/BeerGame.py (lines 108-154).  The
final coercion loop applies `max(0, int(v))` to each (already integer)
order; its `try/except` can only fire on conversion failures, which cannot
occur for integers. -/
def beer_decision (body : JVal) : Except String Resp := do
  let b := if pyTruthy body then body else .obj []
  let hs ← jGet b "handshake" .null
  if isTrueLit hs then pure .handshake
  else do
    let wv ← jGet b "weeks" (.arr [])
    match wv with
    | .arr ws =>
        if ws.isEmpty then pure (.orders 10 10 10 10)
        else do
          let mv ← jGet b "mode" (.str "blackbox")
          let _mode ← pyLower mv
          let o ← beer_orders4 ws
          pure (.orders (max 0 o.1) (max 0 o.2.1) (max 0 o.2.2.1) (max 0 o.2.2.2))
    | _ => pure (.orders 10 10 10 10)

/-! ### src/beerbot.py -/

/-- `projected_position` (src/beerbot.py lines 57-64): same computation as
the BeerGame variant but returning only the inventory position. -/
def bot_projected_position (rs : JVal) : Except String ℤ := do
  let inv ← jGet rs "inventory" (.num 0) >>= pyToInt
  let bkl ← jGet rs "backlog" (.num 0) >>= pyToInt
  let inc ← jGet rs "incoming_orders" (.num 0) >>= pyToInt
  let arr ← jGet rs "arriving_shipments" (.num 0) >>= pyToInt
  let onHand := max 0 (inv + arr - bkl - inc)
  let backlg := max 0 (bkl + inc - (inv + arr))
  pure (onHand - backlg)

/-! ### Concrete week-record builders (well-formed integer inputs) -/

/-- A role state with the four standard integer fields. -/
def mkRoleState (inv bkl inc arr : ℤ) : JVal :=
  .obj [("inventory", .num (inv : ℚ)), ("backlog", .num (bkl : ℚ)),
        ("incoming_orders", .num (inc : ℚ)),
        ("arriving_shipments", .num (arr : ℚ))]

/-- A week record holding one role's state and placed order. -/
def mkWeek (role : String) (inv bkl inc arr ord : ℤ) : JVal :=
  .obj [("roles", .obj [(role, mkRoleState inv bkl inc arr)]),
        ("orders", .obj [(role, .num (ord : ℚ))])]

/-! ### Lead-Time Estimator (spec §4.2)

No lead-time estimator exists under `src/`: `src/app.py` lines 19-21 only
declare the constant `LEAD_TIME = 2`.  The component is modelled from the
spec below. -/

/-- Modelled from the spec: the correlation score of candidate lag `L`
(spec §4.2) — the sum over all valid week offsets `t` of
`orders[t-L] * arrivals[t]`.  Missing from src/: only the constant
`LEAD_TIME` is declared there. -/
def lt_score (orders arrivals : List ℤ) (L : ℕ) : ℤ :=
  (((List.range arrivals.length).filter (fun t => L ≤ t)).map
    (fun t => orders.getD (t - L) 0 * arrivals.getD t 0)).sum

/-- Modelled from the spec: `estimate_lead_time(history, role, max_lag)`
(spec §4.2) on the two aligned series.  Candidate lags 1 .. min(max_lag,
history_length - 1) are scanned ascending, replacing the best candidate
only on strict score improvement; with no candidates the fixed default lag
(the configuration constant `LEAD_TIME = 2`) is returned.  Missing from
src/: only the constant `LEAD_TIME` is declared there. -/
def estimate_lead_time (orders arrivals : List ℤ) (maxLag : ℕ) : ℕ :=
  let cands := (List.range (min maxLag (arrivals.length - 1))).map (· + 1)
  match cands with
  | [] => app_LEAD_TIME
  | c :: cs =>
      cs.foldl
        (fun best L =>
          if lt_score orders arrivals best < lt_score orders arrivals L
          then L else best) c

/-- The pipeline formula in the words of the claim (spec §4.3): the sum of
the most recent `min(lead_time - 1, history_length - 1)` placed orders.
Stated only to be compared against `app_calculate_pipeline`. -/
def spec_pipeline_sum (leadTime : ℕ) (os : List ℤ) : ℤ :=
  (os.reverse.take (min (leadTime - 1) (os.length - 1))).sum

/-- The guard `not isinstance(weeks, list) or not weeks` of the endpoints
(src/app.py line 197, src/BeerGame.py line 127). -/
def weeksBad : JVal → Bool
  | .arr ws => ws.isEmpty
  | _ => true

/-! ## Helper lemmas -/

theorem eok_bind {α β : Type} (a : α) (f : α → Except String β) :
    (Except.ok a >>= f) = f a := rfl

theorem eerr_bind {α β : Type} (e : String) (f : α → Except String β) :
    ((Except.error e : Except String α) >>= f) = .error e := rfl

theorem epure {α : Type} (a : α) : (pure a : Except String α) = .ok a := rfl

theorem truncQ_intCast (n : ℤ) : truncQ (n : ℚ) = n := by
  unfold truncQ; split <;> simp

theorem pyToInt_num_int (n : ℤ) : pyToInt (.num (n : ℚ)) = .ok n := by
  simp [pyToInt, truncQ_intCast]

theorem objBody_if (l : List (String × JVal)) :
    (if pyTruthy (.obj l) then (.obj l : JVal) else .obj []) = .obj l := by
  by_cases h : l.isEmpty
  · have : l = [] := List.isEmpty_iff.mp h
    subst this; simp [pyTruthy]
  · simp [pyTruthy, h]

theorem app_weekly_nonneg (v : JVal) : respNonneg (app_weekly v) := by
  cases v <;> simp [app_weekly, respNonneg]
  case arr ws =>
    by_cases hemp : ws.isEmpty
    · simp [hemp, respNonneg]
    · cases happ : app_orders4 ws with
      | ok o =>
          obtain ⟨r, w, d, f⟩ := o
          simp [hemp, happ, respNonneg]
      | error e => simp [hemp, happ, respNonneg]

theorem app_orders_list_length (role : String) :
    ∀ (ws : List JVal) (os : List ℤ),
      app_orders_list role ws = .ok os → os.length = ws.length := by
  intro ws
  induction ws with
  | nil => intro os h; simp [app_orders_list] at h; simp [← h]
  | cons w t ih =>
      intro os h
      unfold app_orders_list at h
      cases h1 : app_get_order role w with
      | error e => rw [h1, eerr_bind] at h; exact Except.noConfusion h
      | ok o =>
          rw [h1, eok_bind] at h
          cases h2 : app_orders_list role t with
          | error e => rw [h2, eerr_bind] at h; exact Except.noConfusion h
          | ok os1 =>
              rw [h2, eok_bind, epure] at h
              cases h
              simp [ih os1 h2]

theorem app_round_half_up_nonneg (x : ℚ) : 0 ≤ app_round_half_up x :=
  le_max_left 0 _

theorem app_q_last_nonneg (weeks : List JVal) (role : String) (ql : ℤ)
    (h : app_q_last weeks role = .ok ql) : 0 ≤ ql := by
  unfold app_q_last at h
  cases h1 : jGet (weeks.getLastD .null) "orders" (.obj []) with
  | error e => rw [h1, eerr_bind] at h; exact Except.noConfusion h
  | ok lo =>
      rw [h1, eok_bind] at h
      cases h2 : jGet lo role (.num 0) with
      | error e => rw [h2, eerr_bind] at h; exact Except.noConfusion h
      | ok v =>
          rw [h2, eok_bind] at h
          cases h3 : pyToInt v with
          | error e => rw [h3, eerr_bind] at h; exact Except.noConfusion h
          | ok i =>
              rw [h3, eok_bind, epure] at h
              cases h
              exact le_max_left 0 i

/-- Inversion of `app_decide_core`: a successful decision is the previous
order clamped to the ramp window around it (after final `max 0`). -/
theorem app_decide_core_clamp (weeks : List JVal) (role : String) (q : ℤ)
    (fm : ℚ × ℚ) (ql : ℤ)
    (hq : app_decide_core weeks role = .ok q)
    (hfm : app_smooth_forecast_and_mad weeks role app_ALPHA = .ok fm)
    (hql : app_q_last weeks role = .ok ql) :
    ∃ rb : ℤ, 0 ≤ rb ∧
      q = max 0 (min
        (ql + max 1 (app_round_half_up (app_MAX_ORDER_CHANGE * max fm.1 1)))
        (max (max 0 (ql - max 1 (app_round_half_up
          (app_MAX_ORDER_CHANGE * max fm.1 1)))) rb)) := by
  unfold app_decide_core at hq
  cases h1 : jIndex (weeks.getLastD .null) "roles" with
  | error e => rw [h1, eerr_bind] at hq; exact Except.noConfusion hq
  | ok rs =>
      rw [h1, eok_bind] at hq
      cases h2 : jIndex rs role with
      | error e => rw [h2, eerr_bind] at hq; exact Except.noConfusion hq
      | ok cur =>
          rw [h2, eok_bind, hfm, eok_bind] at hq
          cases h3 : (jGet cur "inventory" (.num 0) >>= pyToInt) with
          | error e => rw [h3, eerr_bind] at hq; exact Except.noConfusion hq
          | ok inv =>
              rw [h3, eok_bind] at hq
              cases h4 : (jGet cur "backlog" (.num 0) >>= pyToInt) with
              | error e => rw [h4, eerr_bind] at hq; exact Except.noConfusion hq
              | ok bkl =>
                  rw [h4, eok_bind] at hq
                  cases h5 : app_calculate_pipeline app_LEAD_TIME weeks role with
                  | error e =>
                      rw [h5, eerr_bind] at hq; exact Except.noConfusion hq
                  | ok pl =>
                      rw [h5, eok_bind, hql, eok_bind, epure] at hq
                      exact ⟨_, app_round_half_up_nonneg _,
                        (Except.ok.inj hq).symm⟩

/-! ## Claim theorems -/

/-- C9: for every role state with integer-valued fields, `projected_position`
in the BeerGame and beerbot variants equals exactly
`(inventory + arriving_shipments) - (backlog + incoming_orders)`: the two
`max(0, _)` projections cancel, the function is linear, and no pipeline term
occurs. -/
theorem C9_projected_position_linear (i b c a : ℤ) :
    beer_projected_position (mkRoleState i b c a) =
      .ok (max 0 (i + a - b - c), max 0 (b + c - (i + a)),
           (i + a) - (b + c)) ∧
    bot_projected_position (mkRoleState i b c a) =
      .ok ((i + a) - (b + c)) := by
  constructor
  · simp [beer_projected_position, mkRoleState, jGet, lookupD,
      pyToInt_num_int, eok_bind, epure]
    omega
  · simp [bot_projected_position, mkRoleState, jGet, lookupD,
      pyToInt_num_int, eok_bind, epure]
    omega

/-- C4 (counterexample): in the BeerGame variant the position used for the
order gap on the role state (inventory 5, backlog 0, incoming 3, arriving 2)
is 4, while `inventory - backlog + pipeline` is 5 (the reconstructed
pipeline of the corresponding one-week history being 0): the claimed
formula fails, because that variant adds arriving shipments and subtracts
incoming orders and has no pipeline term at all. -/
theorem C4_counterexample :
    beer_projected_position (mkRoleState 5 0 3 2) = .ok (4, 0, 4) ∧
    app_calculate_pipeline app_LEAD_TIME [mkWeek "retailer" 5 0 3 2 0]
      "retailer" = .ok 0 ∧
    (4 : ℤ) ≠ 5 - 0 + 0 := by
  refine ⟨by with_unfolding_all rfl, by with_unfolding_all rfl, by decide⟩

/-- C4 (amended): in the app.py variant the inventory position equals
`inventory - backlog + pipeline` for every integer-valued current-week
state (arriving shipments are never added); in the BeerGame/beerbot
variants the position instead equals
`(inventory + arriving) - (backlog + incoming)` with no pipeline term. -/
theorem C4_amended (role : String) (i1 b1 c1 a1 o1 i2 b2 c2 a2 o2 : ℤ) :
    app_IP [mkWeek role i1 b1 c1 a1 o1, mkWeek role i2 b2 c2 a2 o2] role =
      .ok (i2 - b2 + o2) ∧
    ∀ i b c a : ℤ,
      (beer_projected_position (mkRoleState i b c a)).map (fun p => p.2.2) =
        .ok ((i + a) - (b + c)) := by
  constructor
  · simp [app_IP, mkWeek, mkRoleState, jIndex, jGet, lookupD, List.lookup,
      app_calculate_pipeline, app_LEAD_TIME, app_orders_list, app_get_order,
      pyToInt_num_int, eok_bind, epure]
  · intro i b c a
    simp [beer_projected_position, mkRoleState, jGet, lookupD,
      pyToInt_num_int, eok_bind, epure, Except.map]
    omega

/-- C3 (counterexample): on a single-week history whose incoming_orders is
12, app.py's `smooth_forecast_and_mad` returns error estimate
`max(1.0, fc / 5.0) = 12/5`, not 0 as the claim states. -/
theorem C3_counterexample :
    app_smooth_forecast_and_mad [mkWeek "wholesaler" 0 0 12 0 0]
      "wholesaler" app_ALPHA = .ok (12, 12 / 5) ∧
    (12 / 5 : ℚ) ≠ 0 := by
  refine ⟨by with_unfolding_all rfl, by norm_num⟩

/-- C3 (amended): the BeerGame/beerbot forecaster `smooth_forecast_and_mae`
satisfies the claim: on any single-week history with non-negative observed
demand `d` it returns forecast exactly `d` and error estimate exactly 0
(cold start, no smoothing, any smoothing weight). -/
theorem C3_amended (role : String) (alpha : ℚ) (i b d a o : ℤ)
    (hd : 0 ≤ d) :
    beer_smooth_forecast_and_mae [mkWeek role i b d a o] role alpha =
      .ok ((d : ℚ), 0) := by
  simp [beer_smooth_forecast_and_mae, beer_smooth_go, mkWeek, mkRoleState,
    jIndex, jGet, lookupD, List.lookup, pyToInt_num_int, eok_bind, epure,
    max_eq_right hd]
  exact hd

/-- C3 (witness): the amended theorem at the claim's concrete demand 12. -/
theorem C3_witness :
    beer_smooth_forecast_and_mae [mkWeek "wholesaler" 0 0 12 0 0]
      "wholesaler" beer_ALPHA = .ok (12, 0) :=
  C3_amended "wholesaler" beer_ALPHA 0 0 12 0 0 (by norm_num)

/-- C10: in the app.py variant, a one-record history whose week field
equals 1 makes `decide_for_role` return exactly 10 for every role,
regardless of every other field of the record. -/
theorem C10_week1_special_case (w : JVal) (role : String) (v : JVal)
    (hv : jGet w "week" .null = .ok v) (h1 : pyEqInt v 1 = true) :
    app_decide_for_role [w] role = .ok 10 := by
  simp [app_decide_for_role, hv, eok_bind, h1, epure, app_INITIAL_DEMAND]

/-- C10 (witness): the special case fired on a record with only a week
field. -/
theorem C10_witness :
    app_decide_for_role [.obj [("week", .num 1)]] "factory" = .ok 10 :=
  C10_week1_special_case (.obj [("week", .num 1)]) "factory" (.num 1)
    (by with_unfolding_all rfl) (by with_unfolding_all rfl)

/-- C2: if the body's weeks field is an empty list or not a list (including
absent, via the `{}` default), and the handshake flag is not `True`, then
both the app.py and the BeerGame.py endpoints return the baseline order 10
for all four roles. -/
theorem C2_empty_history_baseline (l : List (String × JVal))
    (hhs : isTrueLit (lookupD l "handshake" .null) = false)
    (hwk : weeksBad (lookupD l "weeks" (.arr [])) = true) :
    app_decision (.obj l) = .ok (.orders 10 10 10 10) ∧
    beer_decision (.obj l) = .ok (.orders 10 10 10 10) := by
  constructor
  · simp only [app_decision, objBody_if, jGet, eok_bind, hhs,
      Bool.false_eq_true, if_false, epure]
    cases hv : lookupD l "weeks" (.arr []) <;>
      simp_all [app_weekly, weeksBad, epure]
  · simp only [beer_decision, objBody_if, jGet, eok_bind, hhs,
      Bool.false_eq_true, if_false, epure]
    cases hv : lookupD l "weeks" (.arr []) <;>
      simp_all [weeksBad, epure]

/-- C2 (witness): the empty body (no weeks field at all). -/
theorem C2_witness :
    app_decision (.obj []) = .ok (.orders 10 10 10 10) ∧
    beer_decision (.obj []) = .ok (.orders 10 10 10 10) :=
  C2_empty_history_baseline [] rfl rfl

/-- C5 (counterexample): `calculate_pipeline` does not implement the
claimed `min(lead_time - 1, history_length - 1)` window — at lead time 3 on
a 2-week history it returns 0 while the claimed sum over the most recent
`min(2, 1) = 1` week is 7 — and its result is not always non-negative: a
history whose last placed order is -5 yields pipeline -5. -/
theorem C5_counterexample :
    app_calculate_pipeline 3
      [mkWeek "retailer" 0 0 0 0 7, mkWeek "retailer" 0 0 0 0 7]
      "retailer" = .ok 0 ∧
    spec_pipeline_sum 3 [7, 7] = 7 ∧
    (0 : ℤ) ≠ 7 ∧
    app_calculate_pipeline 2
      [mkWeek "retailer" 0 0 0 0 7, mkWeek "retailer" 0 0 0 0 (-5)]
      "retailer" = .ok (-5) ∧
    (-5 : ℤ) < 0 := by
  refine ⟨by with_unfolding_all rfl, by with_unfolding_all rfl, by decide,
    by with_unfolding_all rfl, by decide⟩

/-- C5 (amended): `calculate_pipeline` returns 0 whenever
`lead_time ≤ 1` or the history is shorter than `lead_time`; otherwise it
returns the sum of the role's own placed orders from the most recent
`lead_time - 1` weeks; and the result is non-negative whenever every placed
order in the history is non-negative (for the shipped constant
`LEAD_TIME = 2` this means: 0 on histories shorter than 2, else the last
week's placed order). -/
theorem C5_amended :
    (∀ (L : ℕ) (weeks : List JVal) (role : String),
      L ≤ 1 ∨ weeks.length < L →
      app_calculate_pipeline L weeks role = .ok 0) ∧
    (∀ (L : ℕ) (weeks : List JVal) (role : String) (os : List ℤ),
      1 < L → L ≤ weeks.length → app_orders_list role weeks = .ok os →
      app_calculate_pipeline L weeks role =
        .ok ((os.reverse.take (L - 1)).sum)) ∧
    (∀ (L : ℕ) (weeks : List JVal) (role : String) (os : List ℤ),
      app_orders_list role weeks = .ok os → (∀ o ∈ os, 0 ≤ o) →
      ∀ p, app_calculate_pipeline L weeks role = .ok p → 0 ≤ p) := by
  refine ⟨?_, ?_, ?_⟩
  · intro L weeks role h
    unfold app_calculate_pipeline
    rw [if_pos h]
  · intro L weeks role os h1 h2 hos
    unfold app_calculate_pipeline
    rw [if_neg (by omega)]
    rw [hos, eok_bind]
    have hlen := app_orders_list_length role weeks os hos
    rw [if_neg (by omega), epure]
  · intro L weeks role os hos hnn p hp
    unfold app_calculate_pipeline at hp
    by_cases hg : L ≤ 1 ∨ weeks.length < L
    · rw [if_pos hg] at hp
      cases hp
      exact le_refl 0
    · rw [if_neg hg, hos, eok_bind] at hp
      by_cases hl : os.length < L - 1
      · rw [if_pos hl, epure] at hp
        cases hp
        exact le_refl 0
      · rw [if_neg hl, epure] at hp
        cases hp
        refine List.sum_nonneg ?_
        intro x hx
        exact hnn x (List.mem_reverse.mp (List.take_subset _ _ hx))

/-- C5 (witness): the amended theorem at lead time 1 (always 0), at the
shipped lead time 2 on a 2-week history (last order), and its
non-negativity on that history. -/
theorem C5_witness :
    app_calculate_pipeline 1 [] "retailer" = .ok 0 ∧
    app_calculate_pipeline 2
      [mkWeek "retailer" 0 0 0 0 3, mkWeek "retailer" 0 0 0 0 7]
      "retailer" = .ok (([7, 3].take 1).sum) ∧
    (0 : ℤ) ≤ ([7, 3].take 1).sum := by
  refine ⟨C5_amended.1 1 [] "retailer" (Or.inl (by decide)), ?_, ?_⟩
  · exact C5_amended.2.1 2
      [mkWeek "retailer" 0 0 0 0 3, mkWeek "retailer" 0 0 0 0 7]
      "retailer" [3, 7] (by decide) (by simp)
      (by with_unfolding_all rfl)
  · exact C5_amended.2.2 2
      [mkWeek "retailer" 0 0 0 0 3, mkWeek "retailer" 0 0 0 0 7]
      "retailer" [3, 7] (by with_unfolding_all rfl)
      (by decide) _ (C5_amended.2.1 2 _ "retailer" [3, 7] (by decide)
        (by simp) (by with_unfolding_all rfl))

/-- C1 (counterexample): exceptions do cross the endpoint boundary.  A
truthy non-dictionary body raises `AttributeError` in app.py before its
`try` block is reached, and in BeerGame.py a week record without a `roles`
field raises `KeyError` out of the uncaught per-role loop. -/
theorem C1_counterexample :
    app_decision (.num 5) = .error "AttributeError" ∧
    beer_decision (.obj [("weeks", .arr [.obj []])]) = .error "KeyError" := by
  refine ⟨by with_unfolding_all rfl, by with_unfolding_all rfl⟩

/-- C1 (amended): for every dictionary body, the app.py endpoint returns
without exception either the handshake response or a mapping of all four
roles to non-negative integers; and whenever the per-role computation
faults, the weekly path converts the fault to the baseline order 10 for
all roles.  (Non-dictionary bodies, and malformed records in the
BeerGame.py variant, can still raise — see the counterexample.) -/
theorem C1_amended (l : List (String × JVal)) :
    (∃ resp, app_decision (.obj l) = .ok resp ∧ respNonneg resp) ∧
    (∀ ws e, app_orders4 ws = .error e →
      app_weekly (.arr ws) = .orders 10 10 10 10) := by
  constructor
  · by_cases hts : isTrueLit (lookupD l "handshake" .null)
    · refine ⟨.handshake, ?_, trivial⟩
      simp [app_decision, objBody_if, jGet, eok_bind, hts, epure]
    · refine ⟨app_weekly (lookupD l "weeks" (.arr [])), ?_,
        app_weekly_nonneg _⟩
      simp [app_decision, objBody_if, jGet, eok_bind, hts, epure]
  · intro ws e h
    by_cases hemp : ws.isEmpty
    · simp [app_weekly, hemp]
    · simp [app_weekly, hemp, h]

/-- C1 (witness): the amended theorem on a body whose single week record
makes the per-role computation fault; the endpoint answers the baseline. -/
theorem C1_witness :
    (∃ resp, app_decision (.obj [("weeks", .arr [.obj []])]) = .ok resp ∧
      respNonneg resp) ∧
    app_weekly (.arr [.obj []]) = .orders 10 10 10 10 :=
  ⟨(C1_amended [("weeks", .arr [.obj []])]).1,
   (C1_amended [("weeks", .arr [.obj []])]).2 [.obj []] "KeyError"
     (by with_unfolding_all rfl)⟩

/-- C7 (counterexample): the BeerGame variant applies no ramp: on a
two-week retailer history with constant demand 10 and previous order 0,
its decision is 30, while the claimed bound
`max(1, round_half_up(ramp_fraction * max(forecast, 1)))` with the
configured ramp fraction 0.1 and forecast 10 is 1. -/
theorem C7_counterexample :
    beer_decide_for_role
      [mkWeek "retailer" 0 0 10 0 0, mkWeek "retailer" 0 0 10 0 0]
      "retailer" = .ok 30 ∧
    beer_last_order
      [mkWeek "retailer" 0 0 10 0 0, mkWeek "retailer" 0 0 10 0 0]
      "retailer" = .ok 0 ∧
    beer_smooth_forecast_and_mae
      [mkWeek "retailer" 0 0 10 0 0, mkWeek "retailer" 0 0 10 0 0]
      "retailer" beer_ALPHA = .ok (10, 0) ∧
    ¬(|(30 : ℤ) - 0| ≤
      max 1 (app_round_half_up (app_MAX_ORDER_CHANGE * max (10 : ℚ) 1))) := by
  refine ⟨by with_unfolding_all rfl, by with_unfolding_all rfl,
    by with_unfolding_all rfl, by with_unfolding_all decide⟩

/-- C7 (amended): in the app.py variant the claim holds — whenever the
history has at least two records (so the week-1 special case cannot fire
and a previous order is fed back), the decided order lies within
`ramp = max(1, round_half_up(ramp_fraction * max(forecast, 1)))` of the
previous order. -/
theorem C7_amended (weeks : List JVal) (role : String) (q : ℤ)
    (fm : ℚ × ℚ) (ql : ℤ) (hlen : 2 ≤ weeks.length)
    (hq : app_decide_for_role weeks role = .ok q)
    (hfm : app_smooth_forecast_and_mad weeks role app_ALPHA = .ok fm)
    (hql : app_q_last weeks role = .ok ql) :
    |q - ql| ≤
      max 1 (app_round_half_up (app_MAX_ORDER_CHANGE * max fm.1 1)) := by
  have hq' : app_decide_core weeks role = .ok q := by
    unfold app_decide_for_role at hq
    rw [if_neg (by omega)] at hq
    exact hq
  obtain ⟨rb, hrb, hqe⟩ :=
    app_decide_core_clamp weeks role q fm ql hq' hfm hql
  have hql0 := app_q_last_nonneg weeks role ql hql
  have h1 : (1 : ℤ) ≤
      max 1 (app_round_half_up (app_MAX_ORDER_CHANGE * max fm.1 1)) :=
    le_max_left _ _
  rw [abs_le]
  omega

/-- C7 (witness): the amended ramp bound on a concrete two-week wholesaler
history (decision 7, previous order 6, forecast 8, ramp 1). -/
theorem C7_witness :
    |(7 : ℤ) - 6| ≤
      max 1 (app_round_half_up (app_MAX_ORDER_CHANGE * max (8 : ℚ) 1)) :=
  C7_amended
    [mkWeek "wholesaler" 0 0 8 0 6, mkWeek "wholesaler" 4 0 8 0 6]
    "wholesaler" 7 (8, 8 / 5) 6 (by simp)
    (by with_unfolding_all rfl) (by with_unfolding_all rfl)
    (by with_unfolding_all rfl)

/-- C8 (counterexample): no hard ceiling exists.  On a two-week wholesaler
history with zero demand and a previous order of 1000000, app.py decides
999999 while the order-up-to target is about 34.79; even a generous cap
multiplier of 100 would bound the order by
`round_half_up(100 * target) = 3479 < 999999`. -/
theorem C8_counterexample :
    app_decide_for_role
      [mkWeek "wholesaler" 0 0 0 0 0, mkWeek "wholesaler" 0 0 0 0 1000000]
      "wholesaler" = .ok 999999 ∧
    app_target
      [mkWeek "wholesaler" 0 0 0 0 0, mkWeek "wholesaler" 0 0 0 0 1000000]
      "wholesaler" = .ok (156699275110996221 / 4503599627370496) ∧
    app_round_half_up (100 * (156699275110996221 / 4503599627370496)) <
      999999 := by
  refine ⟨by with_unfolding_all rfl, by with_unfolding_all rfl,
    by with_unfolding_all decide⟩

/-- C8 (amended): the only upper bound the policy enforces is the ramp
around the previous order: in the app.py variant (history of at least two
records) the decided order never exceeds
`last_order + max(1, round_half_up(ramp_fraction * max(forecast, 1)))`;
no `cap_multiplier * target` ceiling is applied in any variant. -/
theorem C8_amended (weeks : List JVal) (role : String) (q : ℤ)
    (fm : ℚ × ℚ) (ql : ℤ) (hlen : 2 ≤ weeks.length)
    (hq : app_decide_for_role weeks role = .ok q)
    (hfm : app_smooth_forecast_and_mad weeks role app_ALPHA = .ok fm)
    (hql : app_q_last weeks role = .ok ql) :
    q ≤ ql + max 1 (app_round_half_up (app_MAX_ORDER_CHANGE * max fm.1 1)) := by
  have hq' : app_decide_core weeks role = .ok q := by
    unfold app_decide_for_role at hq
    rw [if_neg (by omega)] at hq
    exact hq
  obtain ⟨rb, hrb, hqe⟩ :=
    app_decide_core_clamp weeks role q fm ql hq' hfm hql
  have hql0 := app_q_last_nonneg weeks role ql hql
  have h1 : (1 : ℤ) ≤
      max 1 (app_round_half_up (app_MAX_ORDER_CHANGE * max fm.1 1)) :=
    le_max_left _ _
  omega

/-- C8 (witness): the amended ramp upper bound on a concrete two-week
distributor history (decision 4, previous order 4, forecast 5). -/
theorem C8_witness :
    (4 : ℤ) ≤ 4 +
      max 1 (app_round_half_up (app_MAX_ORDER_CHANGE * max (5 : ℚ) 1)) :=
  C8_amended
    [mkWeek "distributor" 2 1 5 0 4, mkWeek "distributor" 3 0 5 0 4]
    "distributor" 4 (5, 1) 4 (by simp)
    (by with_unfolding_all rfl) (by with_unfolding_all rfl)
    (by with_unfolding_all rfl)

/-- Folding with replace-on-strict-improvement over a strictly ascending
candidate list returns a member whose score is maximal and which strictly
beats every smaller candidate (ties keep the earlier, smaller one). -/
theorem lt_foldl_argmax (f : ℕ → ℤ) :
    ∀ (cs : List ℕ) (c : ℕ), List.Pairwise (· < ·) (c :: cs) →
      cs.foldl (fun best L => if f best < f L then L else best) c ∈ c :: cs ∧
      (∀ L ∈ c :: cs,
        f L ≤ f (cs.foldl (fun best L => if f best < f L then L else best) c)) ∧
      (∀ L ∈ c :: cs,
        L < cs.foldl (fun best L => if f best < f L then L else best) c →
        f L < f (cs.foldl (fun best L => if f best < f L then L else best) c)) := by
  intro cs
  induction cs with
  | nil =>
      intro c _
      refine ⟨List.mem_cons_self _ _, ?_, ?_⟩
      · intro L hL
        rcases List.mem_cons.mp hL with h | h
        · subst h; exact le_refl _
        · exact absurd h (List.not_mem_nil L)
      · intro L hL hlt
        rcases List.mem_cons.mp hL with h | h
        · subst h; exact absurd hlt (lt_irrefl _)
        · exact absurd h (List.not_mem_nil L)
  | cons a cs ih =>
      intro c hp
      obtain ⟨hca, hpa⟩ := List.pairwise_cons.mp hp
      simp only [List.foldl_cons]
      by_cases hfc : f c < f a
      · rw [if_pos hfc]
        have h := ih a hpa
        refine ⟨List.mem_cons_of_mem _ h.1, ?_, ?_⟩
        · intro L hL
          rcases List.mem_cons.mp hL with rfl | hL2
          · exact le_of_lt
              (lt_of_lt_of_le hfc (h.2.1 a (List.mem_cons_self a cs)))
          · exact h.2.1 L hL2
        · intro L hL hlt
          rcases List.mem_cons.mp hL with rfl | hL2
          · exact lt_of_lt_of_le hfc (h.2.1 a (List.mem_cons_self a cs))
          · exact h.2.2 L hL2 hlt
      · rw [if_neg hfc]
        have hpc : List.Pairwise (· < ·) (c :: cs) := by
          rcases List.pairwise_cons.mp hpa with ⟨hax, hps⟩
          exact List.pairwise_cons.mpr
            ⟨fun x hx => hca x (List.mem_cons_of_mem a hx), hps⟩
        have h := ih c hpc
        have hfa : f a ≤ f c := le_of_not_lt hfc
        refine ⟨?_, ?_, ?_⟩
        · rcases List.mem_cons.mp h.1 with hr | hr
          · rw [hr]; exact List.mem_cons_self _ _
          · exact List.mem_cons_of_mem _ (List.mem_cons_of_mem _ hr)
        · intro L hL
          rcases List.mem_cons.mp hL with rfl | hL2
          · exact h.2.1 L (List.mem_cons_self _ _)
          · rcases List.mem_cons.mp hL2 with rfl | hL3
            · exact le_trans hfa (h.2.1 c (List.mem_cons_self _ _))
            · exact h.2.1 L (List.mem_cons_of_mem _ hL3)
        · intro L hL hlt
          rcases List.mem_cons.mp hL with rfl | hL2
          · exact h.2.2 L (List.mem_cons_self _ _) hlt
          · rcases List.mem_cons.mp hL2 with rfl | hL3
            · have hcr : c <
                  cs.foldl (fun best M => if f best < f M then M else best) c :=
                lt_trans (hca L (List.mem_cons_self _ _)) hlt
              exact lt_of_le_of_lt hfa
                (h.2.2 c (List.mem_cons_self _ _) hcr)
            · exact h.2.2 L (List.mem_cons_of_mem _ hL3) hlt

/-- C6: the lead-time estimator (modelled from spec §4.2, since src/ only
declares the constant `LEAD_TIME`) scans candidate lags 1 to
min(max_lag, history_length - 1) ascending, scores each by the
orders/arrivals correlation sum, returns the lag of strictly highest score
keeping the smaller lag on ties, falls back to the fixed default lag
(`LEAD_TIME = 2`) when no candidate exists, and always returns at least 1. -/
theorem C6_estimator_spec (orders arrivals : List ℤ) (maxLag : ℕ) :
    1 ≤ estimate_lead_time orders arrivals maxLag ∧
    (min maxLag (arrivals.length - 1) = 0 →
      estimate_lead_time orders arrivals maxLag = app_LEAD_TIME) ∧
    (0 < min maxLag (arrivals.length - 1) →
      estimate_lead_time orders arrivals maxLag ∈
        (List.range (min maxLag (arrivals.length - 1))).map (· + 1) ∧
      (∀ L ∈ (List.range (min maxLag (arrivals.length - 1))).map (· + 1),
        lt_score orders arrivals L ≤
          lt_score orders arrivals (estimate_lead_time orders arrivals maxLag)) ∧
      (∀ L ∈ (List.range (min maxLag (arrivals.length - 1))).map (· + 1),
        L < estimate_lead_time orders arrivals maxLag →
        lt_score orders arrivals L <
          lt_score orders arrivals (estimate_lead_time orders arrivals maxLag))) := by
  by_cases hm : min maxLag (arrivals.length - 1) = 0
  · have he : estimate_lead_time orders arrivals maxLag = app_LEAD_TIME := by
      simp only [estimate_lead_time, hm, List.range_zero, List.map_nil]
    refine ⟨?_, fun _ => he, fun h0 => absurd hm (by omega)⟩
    rw [he]; decide
  · have hlen : 0 <
        ((List.range (min maxLag (arrivals.length - 1))).map (· + 1)).length := by
      simp only [List.length_map, List.length_range]
      omega
    obtain ⟨c, cs, hcc⟩ :=
      List.exists_cons_of_ne_nil (List.ne_nil_of_length_pos hlen)
    have he : estimate_lead_time orders arrivals maxLag =
        cs.foldl (fun best L =>
          if lt_score orders arrivals best < lt_score orders arrivals L
          then L else best) c := by
      simp only [estimate_lead_time, hcc]
    have hpw : List.Pairwise (· < ·)
        ((List.range (min maxLag (arrivals.length - 1))).map (· + 1)) := by
      rw [List.pairwise_map]
      exact (List.pairwise_lt_range _).imp (by omega)
    rw [hcc] at hpw
    have h := lt_foldl_argmax (lt_score orders arrivals) cs c hpw
    rw [← he] at h
    rw [← hcc] at h
    refine ⟨?_, fun h0 => absurd h0 hm, fun _ => h⟩
    obtain ⟨x, _hx, hx1⟩ := List.mem_map.mp h.1
    omega

/-- C6 (witness): on series that tie every candidate lag (zero arrivals),
the estimator returns the smallest lag 1, which is a member of the
candidate list of `min(max_lag, history_length - 1) = 2` lags. -/
theorem C6_witness :
    1 ≤ estimate_lead_time [1, 1, 1] [0, 0, 0] 2 ∧
    estimate_lead_time [1, 1, 1] [0, 0, 0] 2 ∈
      (List.range (min 2 ((3 : ℕ) - 1))).map (· + 1) ∧
    estimate_lead_time [1, 1, 1] [0, 0, 0] 2 = 1 := by
  have h := C6_estimator_spec [1, 1, 1] [0, 0, 0] 2
  refine ⟨h.1, ?_, by with_unfolding_all rfl⟩
  have h2 := (h.2.2 (by decide)).1
  simpa using h2
